import Mathlib

/-!
Verification of the reclaim-mcp-server normalization layer.

This file gives a shallow embedding, in Lean 4, of the deterministic core of
the repository: the deadline/date normalizer (`parseDeadline` together with its
helpers `parseNumericDeadline` and `parseStringDeadline` from
`src/reclaim-client.ts`), the active-task filter (`filterActiveTasks`), the
payload pipelines of `createTask` and `updateTask`, the local guards of
`addTimeToTask` and `logWorkForTask`, and the result/error envelope
(`formatSuccessResult`, `extractErrorInfo`, `extractDetailString`,
`wrapApiCall` from `src/utils.ts`, and `handleApiError` /
`extractAxiosErrorInfo` from `src/reclaim-client.ts`).

Modelling conventions:
* JavaScript `Date` time values are integers counting milliseconds since the
  Unix epoch (ECMA-262 time values).  A time value is representable iff its
  absolute value is at most 8.64e15 (`maxTimeValue`); operations producing an
  unrepresentable value yield an invalid date, and `toISOString` on it throws,
  which the embedding models with `Option` (`none` = threw).
* The host timezone is taken to be UTC (the common deployment for this
  server), so `setDate(getDate() + n)` advances the time value by exactly
  `n * 86400000` milliseconds while preserving the time of day.
* `new Date(string)` is modelled by `jsDateParse`, an executable translation
  of the ECMA-262 Date Time String Format as V8 implements it for full dates:
  `YYYY-MM-DD` (or expanded `±YYYYYY-MM-DD`) with an optional
  `THH:mm[:ss[.sss]]` time part and optional `Z` designator, with calendar
  validation (month 1..12, day bounded by the month length, hour at most
  23, ...) and the final range clip.  Implementation-defined lenient formats
  accepted by some engines (e.g. bare `"2025"`) are outside the model and
  parse to `none`.
* Calendar conversions implement the proleptic Gregorian calendar of
  ECMA-262 `MakeDay` / `YearFromTime` / `MonthFromTime` / `DateFromTime`.
  `civilFromDays` uses an era / century / quadrennium decomposition of the
  day number; `daysFromCivil_civilFromDays` below proves it is a right
  inverse of the direct `daysFromCivil` formula on every day number.
* The TypeScript types `Task`, `TaskInputData` and `ReclaimError` live in
  `src/types/reclaim.ts`, which is not part of the provided sources; their
  Lean counterparts are modelled from the spec (see their doc comments).

Note that on `Int`, `/` and `%` here are Euclidean division and remainder,
which agree with floor division and nonnegative remainder for the positive
divisors used throughout.
-/

/-! ## Gregorian calendar arithmetic (model of ECMA-262 date computations) -/

/-- Largest representable ECMA-262 time value in milliseconds (8.64e15). -/

def maxTimeValue : Nat := 8640000000000000

/-- Milliseconds per day. -/
def msPerDay : Int := 86400000

/-- Proleptic Gregorian leap-year predicate (ECMA-262 `DaysInYear`). -/
def isLeapYear (y : Int) : Bool :=
  (y % 4 == 0 && y % 100 != 0) || y % 400 == 0

/-- Number of days in month `m` (1..12) of year `y`. -/
def daysInMonth (y : Int) (m : Nat) : Nat :=
  if m = 2 then (if isLeapYear y then 29 else 28)
  else if m = 4 ∨ m = 6 ∨ m = 9 ∨ m = 11 then 30
  else 31

/-- Day number (days since 1970-01-01) of the civil date `y-m-d`, by the
standard closed formula over the proleptic Gregorian calendar (the value
ECMA-262 `MakeDay(y, m-1, d)` denotes).  `m` is 1-based; `d` need not be in
range, excess days roll over arithmetically exactly as in `MakeDay`. -/
def daysFromCivil (y : Int) (m : Int) (d : Int) : Int :=
  let yAdj : Int := if m ≤ 2 then y - 1 else y
  let era : Int := yAdj / 400
  let yoe : Int := yAdj - 400 * era
  let mp : Int := if 2 < m then m - 3 else m + 9
  let doy : Int := (153 * mp + 2) / 5 + d - 1
  let doe : Int := 365 * yoe + yoe / 4 - yoe / 100 + doy
  era * 146097 + doe - 719468

/-- Shifted-calendar components `(yoe, mp, d)` of a day-of-era `doe`
(0 ≤ doe ≤ 146096): year-of-era 0..399, month 0..11 counted from March, and
1-based day, via the century / quadrennium / year decomposition. -/
def civilOfDoe (doe : Nat) : Nat × Nat × Nat :=
  let c : Nat := min (doe / 36524) 3
  let r1 : Nat := doe - 36524 * c
  let q : Nat := r1 / 1461
  let r2 : Nat := r1 - 1461 * q
  let yr : Nat := min (r2 / 365) 3
  let doy : Nat := r2 - 365 * yr
  let yoe : Nat := 100 * c + 4 * q + yr
  let mp : Nat := (5 * doy + 2) / 153
  let d : Nat := doy - (153 * mp + 2) / 5 + 1
  (yoe, mp, d)

/-- Civil date `(y, m, d)` of a day number (days since 1970-01-01). -/
def civilFromDays (z : Int) : Int × Int × Int :=
  let z0 : Int := z + 719468
  let era : Int := z0 / 146097
  let p := civilOfDoe (z0 % 146097).toNat
  let m : Nat := if p.2.1 < 10 then p.2.1 + 3 else p.2.1 - 9
  let y : Int := (p.1 : Int) + era * 400
  (if m ≤ 2 then y + 1 else y, (m : Int), (p.2.2 : Int))

/-- Character for the decimal digit `n % 10`. -/
def digitCh (n : Nat) : Char := Char.ofNat (48 + n % 10)

/-- Fixed-width decimal rendering of `n % 10^k`, most significant digit first. -/
def padNum : Nat → Nat → List Char
  | 0, _ => []
  | k + 1, n => digitCh (n / 10 ^ k) :: padNum k n

/-- Read exactly `k` decimal digits, folding their value onto `acc`. -/
def readDigits : Nat → Nat → List Char → Option (Nat × List Char)
  | 0, acc, l => some (acc, l)
  | _ + 1, _, [] => none
  | k + 1, acc, c :: l =>
    if 48 ≤ c.toNat ∧ c.toNat ≤ 57 then readDigits k (acc * 10 + (c.toNat - 48)) l
    else none

/-- Year field of an ISO string: 4 digits for 0..9999, else the ECMA-262
expanded form `±YYYYYY`. -/
def yearChars (y : Int) : List Char :=
  if 0 ≤ y ∧ y ≤ 9999 then padNum 4 y.toNat
  else (if y < 0 then '-' else '+') :: padNum 6 y.natAbs

/-- Character list of the ISO 8601 UTC rendering of a time value, in the
shape produced by `Date.prototype.toISOString`. -/
def isoRenderL (t : Int) : List Char :=
  let days : Int := t / 86400000
  let ms : Nat := (t % 86400000).toNat
  let c := civilFromDays days
  yearChars c.1 ++ '-' :: padNum 2 c.2.1.toNat ++ '-' :: padNum 2 c.2.2.toNat ++
    'T' :: padNum 2 (ms / 3600000) ++ ':' :: padNum 2 (ms / 60000 % 60) ++
    ':' :: padNum 2 (ms / 1000 % 60) ++ '.' :: padNum 3 (ms % 1000) ++ ['Z']

/-- Model of `Date.prototype.toISOString`: `none` models the `RangeError`
thrown on an invalid (out-of-range) date. -/
def jsToISOString (t : Int) : Option String :=
  if t.natAbs ≤ maxTimeValue then some (String.mk (isoRenderL t)) else none

/-- Consume one expected character. -/
def readChar (c : Char) : List Char → Option (List Char)
  | x :: l => if x = c then some l else none
  | [] => none

/-- Accept the end of input or a final `Z` UTC designator. -/
def parseTzTail (l : List Char) : Bool :=
  match l with
  | [] => true
  | ['Z'] => true
  | _ => false

/-- Model of ECMA-262 `TimeClip`: a computed time value is kept only when
representable. -/
def timeClip (t : Int) : Option Int :=
  if t.natAbs ≤ maxTimeValue then some t else none

/-- Assemble a time value from parsed components (ECMA-262
`MakeDay`/`MakeTime`). -/
def mkTimeVal (y : Int) (mo dd hh mi ss ms : Nat) : Int :=
  daysFromCivil y (mo : Int) (dd : Int) * 86400000 +
    ((hh : Int) * 3600000 + (mi : Int) * 60000 + (ss : Int) * 1000 + (ms : Int))

/-- Parse `HH:mm[:ss[.sss]]` followed by an optional `Z`. -/
def parseHMS (l : List Char) : Option (Nat × Nat × Nat × Nat) := do
  let hp ← readDigits 2 0 l
  let r2 ← readChar ':' hp.2
  let mip ← readDigits 2 0 r2
  (readChar ':' mip.2).elim (if parseTzTail mip.2 then some (hp.1, mip.1, 0, 0) else none)
    fun r4 => do
      let sp ← readDigits 2 0 r4
      (readChar '.' sp.2).elim (if parseTzTail sp.2 then some (hp.1, mip.1, sp.1, 0) else none)
        fun r6 => do
          let msp ← readDigits 3 0 r6
          if parseTzTail msp.2 then some (hp.1, mip.1, sp.1, msp.1) else none

/-- Parse the year field: `+`/`-` followed by 6 digits (the negative zero
year being rejected), or 4 digits. -/
def parseYearPart (l : List Char) : Option (Int × List Char) :=
  match l with
  | [] => none
  | c :: rest =>
    if c = '+' then (readDigits 6 0 rest).map fun p => ((p.1 : Int), p.2)
    else if c = '-' then
      (readDigits 6 0 rest).bind fun p =>
        if p.1 = 0 then none else some (-(p.1 : Int), p.2)
    else (readDigits 4 0 (c :: rest)).map fun p => ((p.1 : Int), p.2)

/-- Parse a full ISO 8601 date or date-time string into an unclipped time
value. -/
def parseISORaw (l : List Char) : Option Int := do
  let yp ← parseYearPart l
  let r2 ← readChar '-' yp.2
  let mop ← readDigits 2 0 r2
  let r4 ← readChar '-' mop.2
  let ddp ← readDigits 2 0 r4
  if 1 ≤ mop.1 ∧ mop.1 ≤ 12 ∧ 1 ≤ ddp.1 ∧ ddp.1 ≤ daysInMonth yp.1 mop.1 then
    if ddp.2 = [] then some (mkTimeVal yp.1 mop.1 ddp.1 0 0 0 0)
    else (readChar 'T' ddp.2).bind fun r6 =>
      (parseHMS r6).bind fun q =>
        if q.1 ≤ 23 ∧ q.2.1 ≤ 59 ∧ q.2.2.1 ≤ 59 then
          some (mkTimeVal yp.1 mop.1 ddp.1 q.1 q.2.1 q.2.2.1 q.2.2.2)
        else none
  else none

/-- Parse a full ISO 8601 date or date-time string (with the final
`TimeClip`). -/
def parseISO (l : List Char) : Option Int := (parseISORaw l).bind timeClip

/-- Model of `new Date(string)` for the ECMA-262 Date Time String Format
(full dates, optional time, optional `Z`): `none` models an invalid date. -/
def jsDateParse (s : String) : Option Int := parseISO s.toList

/-- Kind of value a deadline/snooze input can carry (`number | string`). -/
inductive DeadlineInput where
  | num (n : Int)
  | str (s : String)
deriving DecidableEq, Repr

/-- Model of `parseNumericDeadline` (src/reclaim-client.ts lines 589-604).
With a UTC host timezone, `setDate(getDate() + days)` advances the time value
by exactly `days * 86400000` milliseconds, preserving the time of day; the
`toISOString()` call is the only point that can throw (`none`). -/
def parseNumericDeadline (now : Int) (days : Int) : Option String :=
  if days ≤ 0 then jsToISOString now
  else jsToISOString (now + days * 86400000)

/-- Model of `Date.UTC(y, monthIndex, day)`: ECMA-262 `MakeDay` plus
`TimeClip`, including the rule mapping year arguments 0..99 to 1900..1999. -/
def jsDateUTC (y monthIndex day : Int) : Option Int :=
  let yy : Int := if 0 ≤ y ∧ y ≤ 99 then y + 1900 else y
  let ym : Int := yy + monthIndex / 12
  let mn : Int := monthIndex % 12
  timeClip ((daysFromCivil ym (mn + 1) 1 + (day - 1)) * 86400000)

/-- Decimal digit test (`\d`). -/
def isDigitCh (c : Char) : Bool := 48 ≤ c.toNat && c.toNat ≤ 57

/-- Numeric value of a digit character. -/
def digitVal (c : Char) : Nat := c.toNat - 48

/-- Test for the regex `^\d{4}-\d{2}-\d{2}$`. -/
def isYMDShape (l : List Char) : Bool :=
  match l with
  | [a, b, c, d, e, f, g, h, i, j] =>
    isDigitCh a && isDigitCh b && isDigitCh c && isDigitCh d && (e == '-') &&
      isDigitCh f && isDigitCh g && (h == '-') && isDigitCh i && isDigitCh j
  | _ => false

/-- Field values of a `YYYY-MM-DD` string (the `split("-").map(Number)`). -/
def ymdParts (l : List Char) : Int × Int × Int :=
  match l with
  | [a, b, c, d, _, f, g, _, i, j] =>
    (((1000 * digitVal a + 100 * digitVal b + 10 * digitVal c + digitVal d : Nat) : Int),
     ((10 * digitVal f + digitVal g : Nat) : Int),
     ((10 * digitVal i + digitVal j : Nat) : Int))
  | _ => (0, 0, 0)

/-- Message of the `Error` thrown by `parseStringDeadline` on an unparseable
string. -/
def invalidDateMsg (dateStr : String) : String :=
  "Invalid date format: \"" ++ dateStr ++ "\""

/-- Model of `parseStringDeadline` (src/reclaim-client.ts lines 609-630):
`.ok` is the returned ISO string and `.error` carries the thrown message.
First a direct `new Date(dateStr)` parse; on failure, the strict
`YYYY-MM-DD` fallback through `Date.UTC`; otherwise throw. -/
def parseStringDeadline (dateStr : String) : Except String String :=
  match jsDateParse dateStr with
  | some t =>
    match jsToISOString t with
    | some s => .ok s
    | none => .error "RangeError: Invalid time value"
  | none =>
    if isYMDShape dateStr.toList then
      let p := ymdParts dateStr.toList
      match jsDateUTC p.1 (p.2.1 - 1) p.2.2 with
      | some u =>
        match jsToISOString u with
        | some s => .ok s
        | none => .error "RangeError: Invalid time value"
      | none => .error (invalidDateMsg dateStr)
    else .error (invalidDateMsg dateStr)

/-- Default deadline: 24 hours from now (the `setDate(getDate() + 1)` tail of
`parseDeadline`). -/
def defaultDeadline (now : Int) : Option String := jsToISOString (now + 86400000)

/-- Model of `parseDeadline` (src/reclaim-client.ts lines 632-658).  The
`now` argument is the ambient clock (`new Date()`).  A `none` result models
an uncaught throw, which can only arise from the final default computation at
an unrepresentable clock value; every throw inside the `try` is caught and
falls through to the default. -/
def parseDeadline (now : Int) (input : Option DeadlineInput) : Option String :=
  match input with
  | some (.num n) =>
    match parseNumericDeadline now n with
    | some s => some s
    | none => defaultDeadline now
  | some (.str s) =>
    match parseStringDeadline s with
    | .ok r => some r
    | .error _ => defaultDeadline now
  | none => defaultDeadline now

/-- Sanity of the ambient clock: nonnegative with at least a day of headroom
below the representable maximum (true of any physical clock). -/
def saneClock (now : Int) : Prop := 0 ≤ now ∧ now + 86400000 ≤ 8640000000000000

/-- Modelled from the spec: the reference `normalize` contract of §4.1
(Deadline/Date Normalizer), with the representable-range proviso on the
positive-integer branch that claim C2's counterexample forces.  Integer
`n ≤ 0`: the current timestamp; positive `n` with `now + n` days
representable: `now + n` days preserving the time of day; a string: direct
date parse, then the strict `YYYY-MM-DD` fallback constructed through
`Date.UTC`; every other case: the default `now + 1` day. -/
def normalizeSpec (now : Int) (input : Option DeadlineInput) : Option String :=
  match input with
  | some (.num n) =>
    if n ≤ 0 then jsToISOString now
    else if (now + n * 86400000).natAbs ≤ maxTimeValue then
      jsToISOString (now + n * 86400000)
    else jsToISOString (now + 86400000)
  | some (.str s) =>
    match jsDateParse s with
    | some t => jsToISOString t
    | none =>
      if isYMDShape s.toList then
        match jsDateUTC (ymdParts s.toList).1 ((ymdParts s.toList).2.1 - 1)
            (ymdParts s.toList).2.2 with
        | some u => jsToISOString u
        | none => jsToISOString (now + 86400000)
      else jsToISOString (now + 86400000)
  | none => jsToISOString (now + 86400000)

/-- Modelled from the spec: the `Task` record of §3 (`src/types/reclaim.ts`
is not among the provided sources; the source name `Task` is taken by the
Lean core, hence `TaskRec`).  Only the fields the normalization layer reads
are carried explicitly. -/
structure TaskRec where
  id : Int
  title : String
  notes : Option String := none
  status : String
  deleted : Bool
  priority : String := "P2"
deriving DecidableEq, Repr

/-- A JavaScript value passed to `filterActiveTasks`: an array whose elements
are task records or null-ish entries, or one of the non-array values the
defensive branch guards against. -/
inductive TasksValue where
  | arr (tasks : List (Option TaskRec))
  | nullV
  | undefinedV
  | otherV
deriving DecidableEq, Repr

/-- Test for `Array.isArray`. -/
def isArrayValue : TasksValue → Bool
  | .arr _ => true
  | _ => false

/-- The filter predicate of `filterActiveTasks`:
`!task.deleted && task.status !== "ARCHIVED" && task.status !== "CANCELLED"`. -/
def activeTask (task : TaskRec) : Bool :=
  !task.deleted && !(task.status == "ARCHIVED") && !(task.status == "CANCELLED")

/-- Model of `filterActiveTasks` (src/reclaim-client.ts lines 675-687):
non-array input returns the empty array; otherwise elements pass iff they are
non-null (`task &&`) and satisfy the active predicate. -/
def filterActiveTasks (v : TasksValue) : List (Option TaskRec) :=
  match v with
  | .arr tasks =>
    tasks.filter fun t =>
      match t with
      | none => false
      | some task => activeTask task
  | _ => []

/-! ## Task input payloads (`createTask` / `updateTask`) -/

/-- Modelled from the spec: `TaskInputData` of §6 — the optional fields of the
create/update tools plus the upstream `due` field (`src/types/reclaim.ts` is
not among the provided sources).  `deadline` and `snoozeUntil` accept
`number | string`; after normalization `snoozeUntil` holds the produced
string. -/
structure TaskInputData where
  title : Option String := none
  notes : Option String := none
  eventCategory : Option String := none
  eventSubType : Option String := none
  priority : Option String := none
  timeChunksRequired : Option Int := none
  onDeck : Option Bool := none
  status : Option String := none
  eventColor : Option String := none
  due : Option String := none
  deadline : Option DeadlineInput := none
  snoozeUntil : Option DeadlineInput := none
deriving DecidableEq, Repr

/-- A field value in a transmitted payload. -/
inductive FieldVal where
  | str (s : String)
  | int (n : Int)
  | bool (b : Bool)
  | dl (d : DeadlineInput)
deriving DecidableEq, Repr

/-- The key/value entries of a `TaskInputData` object, `none` standing for an
undefined field. -/
def entryList (p : TaskInputData) : List (String × Option FieldVal) :=
  [("title", p.title.map .str), ("notes", p.notes.map .str),
   ("eventCategory", p.eventCategory.map .str), ("eventSubType", p.eventSubType.map .str),
   ("priority", p.priority.map .str), ("timeChunksRequired", p.timeChunksRequired.map .int),
   ("onDeck", p.onDeck.map .bool), ("status", p.status.map .str),
   ("eventColor", p.eventColor.map .str), ("due", p.due.map .str),
   ("deadline", p.deadline.map .dl), ("snoozeUntil", p.snoozeUntil.map .dl)]

/-- Model of the strip of undefined-valued keys
(`Object.entries(apiPayload).filter(([, v]) => v !== undefined)`). -/
def stripUndefined (l : List (String × Option FieldVal)) : List (String × FieldVal) :=
  l.filterMap fun kv => kv.2.map fun v => (kv.1, v)

/-- The deadline→due conversion of `createTask` (src/reclaim-client.ts lines
838-853): a provided deadline is normalized into `due`, and a falsy `due`
(absent or empty) is defaulted through the normalizer.  The `deadline` key
itself survives: `Object.assign(apiPayload, cleanPayload)` only merges the
rest-destructured `cleanPayload` onto `apiPayload` and never deletes the
existing `deadline` property.  `none` models a throw (possible only at an
unrepresentable clock value). -/
def deadlineStepCreate (now : Int) (d : TaskInputData) : Option TaskInputData :=
  match d.deadline with
  | some dl => (parseDeadline now (some dl)).map fun due =>
      { d with due := some due }
  | none =>
    match d.due with
    | some due0 =>
      if due0 = "" then (parseDeadline now none).map fun due => { d with due := some due }
      else some d
    | none => (parseDeadline now none).map fun due => { d with due := some due }

/-- The deadline→due conversion of `updateTask` (src/reclaim-client.ts lines
896-908): as for create — with the same retained `deadline` key, since the
`Object.assign` merge there never deletes it either — but with no defaulting
when `deadline` is absent. -/
def deadlineStepUpdate (now : Int) (d : TaskInputData) : Option TaskInputData :=
  match d.deadline with
  | some dl => (parseDeadline now (some dl)).map fun due =>
      { d with due := some due }
  | none => some d

/-- The snoozeUntil normalization shared by `createTask` and `updateTask`. -/
def snoozeStep (now : Int) (p1 : TaskInputData) : Option TaskInputData :=
  match p1.snoozeUntil with
  | some sv => (parseDeadline now (some sv)).map fun s =>
      { p1 with snoozeUntil := some (.str s) }
  | none => some p1

/-- Model of the payload preparation of `createTask` (src/reclaim-client.ts
lines 832-880): the deadline→due conversion with the default-due rule, then
the snoozeUntil normalization. -/
def createTaskPayload (now : Int) (d : TaskInputData) : Option TaskInputData :=
  (deadlineStepCreate now d).bind (snoozeStep now)

/-- Model of the payload preparation of `updateTask` (src/reclaim-client.ts
lines 890-945): as for create, but without the default-due rule. -/
def updateTaskPayload (now : Int) (d : TaskInputData) : Option TaskInputData :=
  (deadlineStepUpdate now d).bind (snoozeStep now)

/-- Network effect of a `createTask` call. -/
inductive CreateAction where
  | postTask (payload : List (String × FieldVal))
  | threw
deriving DecidableEq, Repr

/-- Model of `createTask` up to its POST request: the transmitted payload
after conversion and stripping. -/
def createTask (now : Int) (d : TaskInputData) : CreateAction :=
  match createTaskPayload now d with
  | none => .threw
  | some p => .postTask (stripUndefined (entryList p))

/-- Network effect of an `updateTask` call. -/
inductive UpdateAction where
  | getTask (taskId : Int)
  | patchTask (taskId : Int) (payload : List (String × FieldVal))
  | threw
deriving DecidableEq, Repr

/-- Model of `updateTask` up to its network call (src/reclaim-client.ts lines
890-945): an empty post-strip payload skips the PATCH and fetches the current
state via `getTask` instead. -/
def updateTask (now : Int) (taskId : Int) (d : TaskInputData) : UpdateAction :=
  match updateTaskPayload now d with
  | none => .threw
  | some p =>
    let entries := stripUndefined (entryList p)
    if entries.length = 0 then .getTask taskId else .patchTask taskId entries

/-! ## JSON values and serialization (models of `JSON.stringify(v, null, 2)`
and `String(v)`) -/

/-- A JSON-like JavaScript value. -/
inductive JsVal where
  | nullV
  | boolV (b : Bool)
  | numV (n : Int)
  | strV (s : String)
  | arrV (elems : List JsVal)
  | objV (fields : List (String × JsVal))

/-- Lower-case hexadecimal digit. -/
def hexDigitCh (n : Nat) : Char :=
  if n % 16 < 10 then digitCh (n % 16) else Char.ofNat (87 + n % 16)

/-- JSON escaping of one character (ECMA-262 `QuoteJSONString`). -/
def escapeJsonChar (c : Char) : String :=
  if c = '"' then "\\\""
  else if c = '\\' then "\\\\"
  else if c = '\n' then "\\n"
  else if c = '\r' then "\\r"
  else if c = '\t' then "\\t"
  else if c = '\x08' then "\\b"
  else if c = '\x0c' then "\\f"
  else if c.toNat < 32 then "\\u00" ++ String.mk [hexDigitCh (c.toNat / 16), hexDigitCh c.toNat]
  else String.singleton c

/-- A JSON string literal. -/
def quoteJson (s : String) : String :=
  "\"" ++ String.join (s.toList.map escapeJsonChar) ++ "\""

/-- Indentation of `n` spaces. -/
def indentStr (n : Nat) : String := String.mk (List.replicate n ' ')

mutual

/-- Model of `JSON.stringify(v, null, 2)` at nesting indentation `ind`. -/
def jsonStringifyAux (ind : Nat) : JsVal → String
  | .nullV => "null"
  | .boolV b => if b then "true" else "false"
  | .numV n => toString n
  | .strV s => quoteJson s
  | .arrV [] => "[]"
  | .arrV (e :: es) =>
    "[\n" ++ jsonItems (ind + 2) (e :: es) ++ "\n" ++ indentStr ind ++ "]"
  | .objV [] => "\x7b\x7d"
  | .objV (f :: fs) =>
    "\x7b\n" ++ jsonFields (ind + 2) (f :: fs) ++ "\n" ++ indentStr ind ++ "\x7d"

/-- Comma-and-newline separated array items, each indented. -/
def jsonItems (ind : Nat) : List JsVal → String
  | [] => ""
  | [e] => indentStr ind ++ jsonStringifyAux ind e
  | e :: e2 :: es =>
    indentStr ind ++ jsonStringifyAux ind e ++ ",\n" ++ jsonItems ind (e2 :: es)

/-- Comma-and-newline separated object fields, each indented. -/
def jsonFields (ind : Nat) : List (String × JsVal) → String
  | [] => ""
  | [f] => indentStr ind ++ quoteJson f.1 ++ ": " ++ jsonStringifyAux ind f.2
  | f :: f2 :: fs =>
    indentStr ind ++ quoteJson f.1 ++ ": " ++ jsonStringifyAux ind f.2 ++ ",\n" ++
      jsonFields ind (f2 :: fs)

end

/-- Model of top-level `JSON.stringify(v, null, 2)`. -/
def jsonStringifyPretty (v : JsVal) : String := jsonStringifyAux 0 v

mutual

/-- Model of JavaScript `String(v)` for the values reaching it in this code
(primitives; the object branches are never reached by `formatSuccessResult`,
which serializes objects as JSON instead). -/
def jsToString : JsVal → String
  | .nullV => "null"
  | .boolV b => if b then "true" else "false"
  | .numV n => toString n
  | .strV s => s
  | .arrV es => jsToStringList es
  | .objV _ => "[object Object]"

/-- Comma-joined element rendering (`Array.prototype.join(",")`). -/
def jsToStringList : List JsVal → String
  | [] => ""
  | [e] => jsToString e
  | e :: e2 :: es => jsToString e ++ "," ++ jsToStringList (e2 :: es)

end

/-- JavaScript truthiness of a value (no NaN in the model). -/
def jsTruthy : JsVal → Bool
  | .nullV => false
  | .boolV b => b
  | .numV n => !(n == 0)
  | .strV s => !(s == "")
  | .arrV _ => true
  | .objV _ => true

/-- Test for `typeof v === "object" && v !== null`. -/
def isObjectLike : JsVal → Bool
  | .objV _ => true
  | .arrV _ => true
  | _ => false

/-- Property access `v.k` on an object value. -/
def getField (v : JsVal) (k : String) : Option JsVal :=
  match v with
  | .objV fields => fields.lookup k
  | _ => none

/-- A truthy string-typed field value
(`x && typeof x === "string"` on an optional property). -/
def asTruthyStr (o : Option JsVal) : Option String :=
  match o with
  | some (.strV s) => if s = "" then none else some s
  | _ => none

/-! ## Error normalization (`handleApiError`, `extractAxiosErrorInfo` in
src/reclaim-client.ts; `extractErrorInfo`, `extractDetailString`,
`wrapApiCall`, `formatSuccessResult` in src/utils.ts) -/

/-- Modelled from the spec: the `NormalizedError` / `ReclaimError` carrier of
§3 (`src/types/reclaim.ts` is not among the provided sources): a message, an
optional HTTP status, and an opaque detail payload. -/
structure ReclaimErrorS where
  message : String
  status : Option Int := none
  detail : Option JsVal := none

/-- A value caught by `handleApiError`: an Axios error with optional response
status/data, a plain `Error`, or any other thrown value. -/
inductive CaughtError where
  | axiosErr (status : Option Int) (responseData : Option JsVal) (message : String)
  | jsError (message : String) (stack : Option String)
  | nonError (v : JsVal)

/-- Model of `extractAxiosErrorInfo` (src/reclaim-client.ts lines 694-727):
returns `(status, message, detail)`. -/
def extractAxiosErrorInfo (status : Option Int) (responseData : Option JsVal)
    (axiosMessage : String) : Option Int × String × Option JsVal :=
  match responseData with
  | none => (status, axiosMessage, none)
  | some rd =>
    if jsTruthy rd then
      let message :=
        if isObjectLike rd then
          match getField rd "message", getField rd "title" with
          | some mv, some tv =>
            if jsTruthy mv && jsTruthy tv then jsToString tv ++ ": " ++ jsToString mv
            else if jsTruthy mv then jsToString mv
            else axiosMessage
          | some mv, none => if jsTruthy mv then jsToString mv else axiosMessage
          | _, _ => axiosMessage
        else
          match rd with
          | .strV s => s
          | _ => axiosMessage
      (status, message, some rd)
    else (status, axiosMessage, none)

/-- Detail object for a plain `Error` (`{ stack: error.stack }`). -/
def stackDetail (stack : Option String) : JsVal :=
  match stack with
  | some s => .objV [("stack", .strV s)]
  | none => .objV []

/-- Model of `handleApiError` (src/reclaim-client.ts lines 751-781): the
`ReclaimError` value it always throws. -/
def handleApiError (e : CaughtError) (context : String) : ReclaimErrorS :=
  match e with
  | .axiosErr st rd msg =>
    let info := extractAxiosErrorInfo st rd msg
    { message := context ++ ": " ++ info.2.1, status := info.1, detail := info.2.2 }
  | .jsError msg stack =>
    { message := context ++ ": " ++ msg, status := none, detail := some (stackDetail stack) }
  | .nonError v =>
    { message := context ++ ": " ++ "An unexpected error occurred during API call.",
      status := none, detail := some v }

/-- A value rejecting the promise handed to `wrapApiCall`. -/
inductive ThrownError where
  | reclaim (e : ReclaimErrorS)
  | jsError (message : String) (stack : Option String)
  | other (v : JsVal)

/-- Settlement of the promise handed to `wrapApiCall`: fulfilled with a value
(`none` = undefined, i.e. a void-like resolution) or rejected. -/
inductive Outcome where
  | ok (v : Option JsVal)
  | err (e : ThrownError)

/-- The MCP tool-result envelope: an error flag and text blocks. -/
structure ToolResult where
  isError : Bool := false
  content : List String
deriving DecidableEq, Repr

/-- Model of `extractErrorInfo` (src/utils.ts lines 54-76): returns
`(errorMessage, errorDetail, errorCode)`. -/
def extractErrorInfo (e : ThrownError) : String × Option JsVal × Option Int :=
  match e with
  | .reclaim r => (r.message, r.detail, r.status)
  | .jsError msg stack => (msg, some (stackDetail stack), none)
  | .other v => ("An unexpected non-Error value was thrown: " ++ jsToString v, some v, none)

/-- Model of `extractDetailString` (src/utils.ts lines 85-113). -/
def extractDetailString (errorDetail : Option JsVal) (errorMessage : String) :
    Option String :=
  match errorDetail with
  | none => none
  | some d =>
    if jsTruthy d then
      if isObjectLike d then
        match (asTruthyStr (getField d "detail")).filter (fun s => s.length < 150) with
        | some s => some s
        | none => (asTruthyStr (getField d "message")).filter (fun s => s != errorMessage)
      else
        match d with
        | .strV s => if s.length < 150 && s != errorMessage then some s else none
        | _ => none
    else none

/-- Model of `formatSuccessResult` (src/utils.ts lines 26-46): `none` input
models a void-like (undefined) resolution. -/
def formatSuccessResult (result : Option JsVal) : ToolResult :=
  match result with
  | none => { content := [jsonStringifyPretty (.objV [("success", .boolV true)])] }
  | some v =>
    let resultText := if isObjectLike v then jsonStringifyPretty v else jsToString v
    { content := [resultText] }

/-- Model of `wrapApiCall` (src/utils.ts lines 123-160), as the total
function from the promise settlement to the tool result. -/
def wrapApiCall (outcome : Outcome) : ToolResult :=
  match outcome with
  | .ok v => formatSuccessResult v
  | .err e =>
    let info := extractErrorInfo e
    let errorMessage := info.1
    let errorDetail := info.2.1
    let errorCode := info.2.2
    let userMessage :=
      match errorCode with
      | some c => if c = 0 then "Error: " ++ errorMessage
                  else "Error " ++ toString c ++ ": " ++ errorMessage
      | none => "Error: " ++ errorMessage
    let userMessage2 :=
      match errorDetail with
      | some d =>
        if isObjectLike d then
          match asTruthyStr (getField d "title") with
          | some t => userMessage ++ " - " ++ t
          | none => userMessage
        else userMessage
      | none => userMessage
    let userMessage3 :=
      match extractDetailString errorDetail errorMessage with
      | some ds => userMessage2 ++ " (" ++ ds ++ ")"
      | none => userMessage2
    { isError := true, content := [userMessage3] }

/-! ## Action endpoints with local guards (`addTimeToTask`, `logWorkForTask`) -/

/-- Network effect of an `addTimeToTask` call. -/
inductive AddTimeAction where
  | thrown (message : String)
  | postAddTime (taskId minutes : Int)
deriving DecidableEq, Repr

/-- Model of `addTimeToTask` (src/reclaim-client.ts lines 1006-1021) up to
its POST request: non-positive minutes throw before any request exists. -/
def addTimeToTask (taskId minutes : Int) : AddTimeAction :=
  if minutes ≤ 0 then .thrown "Minutes must be positive to add time."
  else .postAddTime taskId minutes

/-- Query parameters of the log-work POST. -/
structure LogWorkParams where
  minutes : Int
  endParam : Option String := none
deriving DecidableEq, Repr

/-- Network effect of a `logWorkForTask` call. -/
inductive LogWorkAction where
  | thrown (message : String)
  | postLogWork (taskId : Int) (params : LogWorkParams)
deriving DecidableEq, Repr

/-- Message of the error `logWorkForTask` raises on an unparseable `end`,
interpolating the caught error's message.  The only throwers inside the try
are `toISOString` calls, whose `RangeError` (an `Error` instance) carries the
message `Invalid time value`. -/
def logWorkEndErr (e msg : String) : String :=
  "Invalid 'end' date format: \"" ++ e ++ "\". Error: " ++ msg ++
    ". Please use ISO 8601 or YYYY-MM-DD format."

/-- Model of `logWorkForTask` (src/reclaim-client.ts lines 1063-1102) up to
its POST request: the positive-minutes guard, then the `end` validation and
normalization through `parseDeadline`, with the bare-date re-coercion branch
(`parsedEnd.length === 10`) modelled by a re-parse and re-render. -/
def logWorkForTask (now taskId minutes : Int) (endInput : Option String) : LogWorkAction :=
  if minutes ≤ 0 then .thrown "Minutes must be positive to log work."
  else
    match endInput with
    | none => .postLogWork taskId { minutes := minutes }
    | some e =>
      if e = "" then .postLogWork taskId { minutes := minutes }
      else
        match parseDeadline now (some (.str e)) with
        | some parsedEnd =>
          if parsedEnd.length = 10 then
            match (jsDateParse parsedEnd).bind jsToISOString with
            | some s2 => .postLogWork taskId { minutes := minutes, endParam := some s2 }
            | none => .thrown (logWorkEndErr e "Invalid time value")
          else .postLogWork taskId { minutes := minutes, endParam := some parsedEnd }
        | none => .thrown (logWorkEndErr e "Invalid time value")

/-! ## Reference definition for the fulfillment contract (§4.5) -/

/-- Modelled from the spec: §4.5's fulfillment contract as C8 words it — a
void-like resolution yields the canonical success JSON, every other resolved
value is JSON-serialized with pretty-printing.  The source instead runs
primitive values through `String(result)`. -/
def formatSuccessResultSpec (result : Option JsVal) : ToolResult :=
  match result with
  | none => { content := [jsonStringifyPretty (.objV [("success", .boolV true)])] }
  | some v => { content := [jsonStringifyPretty v] }

/-! ## Theorems -/

theorem daysInMonth_le (y : Int) (m : Nat) : daysInMonth y m ≤ 31 := by
  unfold daysInMonth
  split_ifs <;> omega

/-- Arithmetic facts about the `civilOfDoe` decomposition, stated over free
variables so that each stage is a small linear-arithmetic goal. -/
theorem doeDecompAux (doe c r1 q r2 yr doy yoe mp d : Nat)
    (hc : c = min (doe / 36524) 3) (hr1 : r1 = doe - 36524 * c)
    (hq : q = r1 / 1461) (hr2 : r2 = r1 - 1461 * q)
    (hyr : yr = min (r2 / 365) 3) (hdoy : doy = r2 - 365 * yr)
    (hyoe : yoe = 100 * c + 4 * q + yr)
    (hmp : mp = (5 * doy + 2) / 153) (hd : d = doy - (153 * mp + 2) / 5 + 1)
    (h : doe ≤ 146096) :
    yoe ≤ 399 ∧ mp ≤ 11 ∧ 1 ≤ d ∧ d ≤ 31 ∧
    365 * yoe + yoe / 4 - yoe / 100 + ((153 * mp + 2) / 5 + d - 1) = doe ∧
    (mp = 1 ∨ mp = 3 ∨ mp = 6 ∨ mp = 8 → d ≤ 30) ∧
    (mp = 11 → d ≤ 29) ∧
    (mp = 11 → d = 29 → (yoe + 1) % 4 = 0 ∧ ((yoe + 1) % 100 ≠ 0 ∨ yoe + 1 = 400)) := by
  -- stage 1: the era decomposition
  have hstage1 : c ≤ 3 ∧ q ≤ 24 ∧ yr ≤ 3 ∧ doy ≤ 365 ∧
      doe = 36524 * c + 1461 * q + 365 * yr + doy ∧
      (doy = 365 → yr = 3 ∧ (q = 24 → c = 3)) := by omega
  obtain ⟨hc3, hq24, hyr3, hdoy365, hdec, hleapc⟩ := hstage1
  clear hc hr1 hq hr2 hyr hdoy h
  -- stage 2: month and day within the shifted year
  have hstage2 : mp ≤ 11 ∧ 1 ≤ d ∧ d ≤ 31 ∧ ((153 * mp + 2) / 5 + d - 1 = doy) ∧
      (mp = 1 ∨ mp = 3 ∨ mp = 6 ∨ mp = 8 → d ≤ 30) ∧
      (mp = 11 → d ≤ 29) ∧ (mp = 11 → d = 29 → doy = 365) := by omega
  obtain ⟨hmp11, hd1, hd31, hdoyrt, h30, hfeb, hd29⟩ := hstage2
  clear hmp hd
  -- stage 3: recomposition and the leap-year coupling
  refine ⟨by omega, hmp11, hd1, hd31, by omega, h30, hfeb, ?_⟩
  intro h11 h29
  have hdoyEq : doy = 365 := hd29 h11 h29
  have := hleapc hdoyEq
  omega

theorem civilOfDoe_spec (doe : Nat) (h : doe ≤ 146096) :
    (civilOfDoe doe).1 ≤ 399 ∧ (civilOfDoe doe).2.1 ≤ 11 ∧
    1 ≤ (civilOfDoe doe).2.2 ∧ (civilOfDoe doe).2.2 ≤ 31 ∧
    365 * (civilOfDoe doe).1 + (civilOfDoe doe).1 / 4 - (civilOfDoe doe).1 / 100 +
      ((153 * (civilOfDoe doe).2.1 + 2) / 5 + (civilOfDoe doe).2.2 - 1) = doe ∧
    ((civilOfDoe doe).2.1 = 1 ∨ (civilOfDoe doe).2.1 = 3 ∨
      (civilOfDoe doe).2.1 = 6 ∨ (civilOfDoe doe).2.1 = 8 → (civilOfDoe doe).2.2 ≤ 30) ∧
    ((civilOfDoe doe).2.1 = 11 → (civilOfDoe doe).2.2 ≤ 29) ∧
    ((civilOfDoe doe).2.1 = 11 → (civilOfDoe doe).2.2 = 29 →
      ((civilOfDoe doe).1 + 1) % 4 = 0 ∧
      (((civilOfDoe doe).1 + 1) % 100 ≠ 0 ∨ (civilOfDoe doe).1 + 1 = 400)) := by
  exact doeDecompAux doe _ _ _ _ _ _ _ _ _ rfl rfl rfl rfl rfl rfl rfl rfl rfl h

/-- Applying `daysFromCivil` to components satisfying the `civilOfDoe`
recomposition facts recovers the era-and-day-of-era form of the day number. -/
theorem daysFromCivilAux (era : Int) (yoe mp d m doe : Nat) (y yFin : Int)
    (hmOr : (mp ≤ 9 ∧ m = mp + 3) ∨ (10 ≤ mp ∧ m + 9 = mp))
    (hy : y = (yoe : Int) + era * 400)
    (hyFin : yFin = if m ≤ 2 then y + 1 else y)
    (hyoeB : yoe ≤ 399) (hmpB : mp ≤ 11) (hd1 : 1 ≤ d)
    (hsum : 365 * yoe + yoe / 4 - yoe / 100 + ((153 * mp + 2) / 5 + d - 1) = doe) :
    daysFromCivil yFin (m : Int) (d : Int) = era * 146097 + (doe : Int) - 719468 := by
  simp only [daysFromCivil]
  have hyAdj : (if (m : Int) ≤ 2 then yFin - 1 else yFin) = y := by
    by_cases hm2 : m ≤ 2
    · rw [if_pos (by exact_mod_cast hm2), hyFin, if_pos hm2]; ring
    · rw [if_neg (by exact_mod_cast hm2), hyFin, if_neg hm2]
  rw [hyAdj]
  have hmpInt : (if 2 < (m : Int) then (m : Int) - 3 else (m : Int) + 9) = (mp : Int) := by
    rcases hmOr with ⟨h1, h2⟩ | ⟨h1, h2⟩ <;> split <;> omega
  rw [hmpInt]
  omega

theorem daysFromCivil_civilFromDays (z : Int) :
    daysFromCivil (civilFromDays z).1 (civilFromDays z).2.1 (civilFromDays z).2.2 = z ∧
    1 ≤ (civilFromDays z).2.1 ∧ (civilFromDays z).2.1 ≤ 12 ∧
    1 ≤ (civilFromDays z).2.2 ∧
    (civilFromDays z).2.2 ≤
      (daysInMonth (civilFromDays z).1 (civilFromDays z).2.1.toNat : Int) ∧
    (z.natAbs ≤ 100000001 → (civilFromDays z).1.natAbs ≤ 999999) := by
  have hnn : (0 : Int) ≤ (z + 719468) % 146097 := Int.emod_nonneg _ (by decide)
  have hlt : (z + 719468) % 146097 < 146097 := Int.emod_lt_of_pos _ (by decide)
  have hdoeLe : ((z + 719468) % 146097).toNat ≤ 146096 := by omega
  obtain ⟨hyoeB, hmpB, hd1, hd31, hsum, h30, hfeb, hleap⟩ :=
    civilOfDoe_spec ((z + 719468) % 146097).toNat hdoeLe
  rcases hP : civilOfDoe ((z + 719468) % 146097).toNat with ⟨yoe, mp, d⟩
  rw [hP] at hyoeB hmpB hd1 hd31 hsum h30 hfeb hleap
  simp only at hyoeB hmpB hd1 hd31 hsum h30 hfeb hleap
  have herad : 146097 * ((z + 719468) / 146097) + ((((z + 719468) % 146097).toNat : Nat) : Int)
      = z + 719468 := by omega
  have hciv : civilFromDays z =
      (if (if mp < 10 then mp + 3 else mp - 9) ≤ 2
        then ((yoe : Int) + (z + 719468) / 146097 * 400) + 1
        else (yoe : Int) + (z + 719468) / 146097 * 400,
       ((if mp < 10 then mp + 3 else mp - 9 : Nat) : Int),
       (d : Int)) := by
    simp only [civilFromDays, hP]
  rw [hciv]
  simp only
  set era : Int := (z + 719468) / 146097 with hera
  set m : Nat := if mp < 10 then mp + 3 else mp - 9 with hmDef
  have hmOr : (mp ≤ 9 ∧ m = mp + 3) ∨ (10 ≤ mp ∧ m + 9 = mp) := by
    rw [hmDef]; split <;> omega
  have hm12 : 1 ≤ m ∧ m ≤ 12 := by omega
  set y : Int := (yoe : Int) + era * 400 with hy
  set yFin : Int := if m ≤ 2 then y + 1 else y with hyFin
  refine ⟨?_, by exact_mod_cast hm12.1, by exact_mod_cast hm12.2, by exact_mod_cast hd1, ?_, ?_⟩
  · -- inversion
    have hinv := daysFromCivilAux era yoe mp d m ((z + 719468) % 146097).toNat y yFin
      hmOr hy hyFin hyoeB hmpB hd1 hsum
    omega
  · -- day is within the month length
    have hmNat : ((m : Int)).toNat = m := by omega
    rw [hmNat]
    simp only [daysInMonth]
    by_cases h2 : m = 2
    · rw [if_pos h2]
      have hmp11 : mp = 11 := by omega
      have hdle : d ≤ 29 := hfeb hmp11
      by_cases hl : isLeapYear yFin = true
      · rw [if_pos hl]; exact_mod_cast hdle
      · rw [if_neg hl]
        -- in a non-leap February the 29th cannot occur
        by_cases hd29 : d = 29
        · exfalso
          obtain ⟨hl4, hl100⟩ := hleap hmp11 hd29
          apply hl
          have hyFinEq : yFin = ((yoe : Int) + 1) + era * 400 := by
            rw [hyFin, if_pos (by omega : m ≤ 2), hy]; ring
          rw [isLeapYear]
          simp only [Bool.or_eq_true, Bool.and_eq_true, beq_iff_eq, bne_iff_ne]
          rw [hyFinEq]
          omega
        · have : d ≤ 28 := by omega
          exact_mod_cast this
    · rw [if_neg h2]
      by_cases h30' : m = 4 ∨ m = 6 ∨ m = 9 ∨ m = 11
      · rw [if_pos h30']
        have : d ≤ 30 := by
          apply h30
          omega
        exact_mod_cast this
      · rw [if_neg h30']
        exact_mod_cast hd31
  · -- years stay within six digits for day numbers near the representable range
    intro hz
    by_cases hm2 : m ≤ 2
    · rw [hyFin, if_pos hm2, hy]; omega
    · rw [hyFin, if_neg hm2, hy]; omega

/-! ## Decimal digit rendering and reading -/

theorem digitCh_toNat (n : Nat) : (digitCh n).toNat = 48 + n % 10 := by
  have h : n % 10 < 10 := Nat.mod_lt _ (by omega)
  rw [digitCh]
  set k := n % 10 with hk
  interval_cases k <;> decide

theorem digitCh_ne_plus (n : Nat) : digitCh n ≠ '+' := by
  intro h
  have := congrArg Char.toNat h
  rw [digitCh_toNat] at this
  simp only [show ('+').toNat = 43 from rfl] at this
  omega

theorem digitCh_ne_minus (n : Nat) : digitCh n ≠ '-' := by
  intro h
  have := congrArg Char.toNat h
  rw [digitCh_toNat] at this
  simp only [show ('-').toNat = 45 from rfl] at this
  omega

theorem padNum_length (k n : Nat) : (padNum k n).length = k := by
  induction k generalizing n with
  | zero => rfl
  | succ k ih => simp [padNum, ih]

theorem readDigits_padNum (k acc n : Nat) (r : List Char) :
    readDigits k acc (padNum k n ++ r) = some (acc * 10 ^ k + n % 10 ^ k, r) := by
  induction k generalizing acc with
  | zero => simp [padNum, readDigits, Nat.mod_one]
  | succ k ih =>
    rw [padNum, List.cons_append, readDigits]
    rw [if_pos (by rw [digitCh_toNat]; omega)]
    rw [digitCh_toNat]
    have hstep : acc * 10 + (48 + n / 10 ^ k % 10 - 48) = acc * 10 + n / 10 ^ k % 10 := by omega
    rw [hstep, ih]
    congr 1
    have hmm : n % 10 ^ (k + 1) = n / 10 ^ k % 10 * 10 ^ k + n % 10 ^ k := by
      conv_lhs => rw [pow_succ]
      rw [Nat.mod_mul]
      ring
    rw [hmm]
    ring_nf

theorem readDigits_padNum_small (k n : Nat) (r : List Char) (h : n < 10 ^ k) :
    readDigits k 0 (padNum k n ++ r) = some (n, r) := by
  rw [readDigits_padNum]
  congr 2
  rw [Nat.mod_eq_of_lt h]
  omega

/-! ## ISO 8601 rendering and parsing (model of `toISOString` / `new Date(string)`) -/

theorem timeClip_some {x u : Int} (h : timeClip x = some u) :
    u.natAbs ≤ maxTimeValue ∧ u = x := by
  rw [timeClip] at h
  split_ifs at h with hc
  exact ⟨Option.some_inj.mp h ▸ hc, (Option.some_inj.mp h).symm⟩

theorem readChar_cons (c : Char) (l : List Char) : readChar c (c :: l) = some l := by
  simp [readChar]

theorem readDigits_padNum2 (n : Nat) (r : List Char) (h : n < 100) :
    readDigits 2 0 (padNum 2 n ++ r) = some (n, r) :=
  readDigits_padNum_small 2 n r (by norm_num; omega)

theorem readDigits_padNum3 (n : Nat) (r : List Char) (h : n < 1000) :
    readDigits 3 0 (padNum 3 n ++ r) = some (n, r) :=
  readDigits_padNum_small 3 n r (by norm_num; omega)

theorem readDigits_padNum4 (n : Nat) (r : List Char) (h : n < 10000) :
    readDigits 4 0 (padNum 4 n ++ r) = some (n, r) :=
  readDigits_padNum_small 4 n r (by norm_num; omega)

theorem readDigits_padNum6 (n : Nat) (r : List Char) (h : n < 1000000) :
    readDigits 6 0 (padNum 6 n ++ r) = some (n, r) :=
  readDigits_padNum_small 6 n r (by norm_num; omega)

theorem parseYearPart_cons (c : Char) (rest : List Char) :
    parseYearPart (c :: rest) =
      if c = '+' then (readDigits 6 0 rest).map fun p => ((p.1 : Int), p.2)
      else if c = '-' then
        (readDigits 6 0 rest).bind fun p =>
          if p.1 = 0 then none else some (-(p.1 : Int), p.2)
      else (readDigits 4 0 (c :: rest)).map fun p => ((p.1 : Int), p.2) := rfl

theorem parseYearPart_yearChars (y : Int) (hy : y.natAbs ≤ 999999) (r : List Char) :
    parseYearPart (yearChars y ++ r) = some (y, r) := by
  rw [yearChars]
  by_cases h1 : 0 ≤ y ∧ y ≤ 9999
  · rw [if_pos h1]
    have hhead : padNum 4 y.toNat = digitCh (y.toNat / 10 ^ 3) :: padNum 3 y.toNat := rfl
    rw [hhead, List.cons_append, parseYearPart_cons]
    rw [if_neg (digitCh_ne_plus _), if_neg (digitCh_ne_minus _)]
    rw [← List.cons_append, ← hhead, readDigits_padNum4 y.toNat r (by omega)]
    simp only [Option.map_some']
    congr 2
    omega
  · rw [if_neg h1]
    by_cases hneg : y < 0
    · rw [if_pos hneg, List.cons_append, parseYearPart_cons]
      rw [if_neg (by decide : ¬ ('-' : Char) = '+'), if_pos rfl]
      rw [readDigits_padNum6 y.natAbs r (by omega)]
      simp only [Option.some_bind]
      rw [if_neg (by omega : ¬ y.natAbs = 0)]
      congr 2
      omega
    · rw [if_neg hneg, List.cons_append, parseYearPart_cons]
      rw [if_pos rfl]
      rw [readDigits_padNum6 y.natAbs r (by omega)]
      simp only [Option.map_some']
      congr 2
      omega

theorem parseISO_isoRenderL (t : Int) (h : t.natAbs ≤ maxTimeValue) :
    parseISO (isoRenderL t) = some t := by
  have hD : (86400000 : Int) * (t / 86400000) + t % 86400000 = t := Int.ediv_add_emod t 86400000
  have hms0 : (0 : Int) ≤ t % 86400000 := Int.emod_nonneg _ (by decide)
  have hmsLt : t % 86400000 < 86400000 := Int.emod_lt_of_pos _ (by decide)
  obtain ⟨hinv, hm1, hm12, hd1, hdlt, hyB⟩ := daysFromCivil_civilFromDays (t / 86400000)
  rcases hciv : civilFromDays (t / 86400000) with ⟨y, mI, dI⟩
  rw [hciv] at hinv hm1 hm12 hd1 hdlt hyB
  dsimp only at hinv hm1 hm12 hd1 hdlt hyB
  simp only [maxTimeValue] at h
  have hyB' : y.natAbs ≤ 999999 := by
    apply hyB
    omega
  have hdm31 : daysInMonth y mI.toNat ≤ 31 := daysInMonth_le y mI.toNat
  have hrender : isoRenderL t =
      yearChars y ++ '-' :: (padNum 2 mI.toNat ++ '-' :: (padNum 2 dI.toNat ++
        'T' :: (padNum 2 ((t % 86400000).toNat / 3600000) ++
        ':' :: (padNum 2 ((t % 86400000).toNat / 60000 % 60) ++
        ':' :: (padNum 2 ((t % 86400000).toNat / 1000 % 60) ++
        '.' :: (padNum 3 ((t % 86400000).toNat % 1000) ++ ['Z'])))))) := by
    simp only [isoRenderL, hciv, List.append_assoc, List.cons_append]
  rw [hrender]
  rw [parseISO, parseISORaw, parseYearPart_yearChars y hyB']
  simp only [Option.bind_eq_bind, Option.some_bind]
  rw [readChar_cons]
  simp only [Option.some_bind]
  rw [readDigits_padNum2 mI.toNat _ (by omega)]
  simp only [Option.some_bind]
  rw [readChar_cons]
  simp only [Option.some_bind]
  rw [readDigits_padNum2 dI.toNat _ (by omega)]
  simp only [Option.some_bind]
  rw [if_pos (show (1 ≤ mI.toNat ∧ mI.toNat ≤ 12 ∧ 1 ≤ dI.toNat ∧
      dI.toNat ≤ daysInMonth y mI.toNat) by
    refine ⟨by omega, by omega, by omega, by omega⟩)]
  rw [if_neg (by simp)]
  rw [readChar_cons]
  simp only [Option.some_bind]
  rw [parseHMS]
  simp only [Option.bind_eq_bind]
  rw [readDigits_padNum2 ((t % 86400000).toNat / 3600000) _ (by omega)]
  simp only [Option.some_bind]
  rw [readChar_cons]
  simp only [Option.some_bind]
  rw [readDigits_padNum2 ((t % 86400000).toNat / 60000 % 60) _ (by omega)]
  simp only [Option.some_bind]
  rw [readChar_cons]
  simp only [Option.elim_some]
  rw [readDigits_padNum2 ((t % 86400000).toNat / 1000 % 60) _ (by omega)]
  simp only [Option.some_bind]
  rw [readChar_cons]
  simp only [Option.elim_some]
  rw [readDigits_padNum3 ((t % 86400000).toNat % 1000) _ (by omega)]
  simp only [Option.some_bind]
  rw [if_pos (by decide : parseTzTail ['Z'] = true)]
  simp only [Option.some_bind]
  rw [if_pos (show (t % 86400000).toNat / 3600000 ≤ 23 ∧
    (t % 86400000).toNat / 60000 % 60 ≤ 59 ∧ (t % 86400000).toNat / 1000 % 60 ≤ 59 by
    refine ⟨by omega, by omega, by omega⟩)]
  simp only [Option.some_bind, mkTimeVal, timeClip]
  have hmo : ((mI.toNat : Nat) : Int) = mI := by omega
  have hdd : ((dI.toNat : Nat) : Int) = dI := by omega
  rw [hmo, hdd, hinv]
  have htime : (((t % 86400000).toNat / 3600000 : Nat) : Int) * 3600000 +
      (((t % 86400000).toNat / 60000 % 60 : Nat) : Int) * 60000 +
      (((t % 86400000).toNat / 1000 % 60 : Nat) : Int) * 1000 +
      (((t % 86400000).toNat % 1000 : Nat) : Int) = t % 86400000 := by
    omega
  rw [htime]
  rw [if_pos (by simp only [maxTimeValue]; omega)]
  congr 1
  omega

theorem yearChars_length (y : Int) :
    (yearChars y).length = if 0 ≤ y ∧ y ≤ 9999 then 4 else 7 := by
  rw [yearChars]
  split_ifs with h1 h2 <;> simp [padNum_length, List.length_cons]

theorem isoRenderL_length (t : Int) :
    (isoRenderL t).length = 24 ∨ (isoRenderL t).length = 27 := by
  have hy := yearChars_length (civilFromDays (t / 86400000)).1
  simp only [isoRenderL, List.length_append, List.length_cons, padNum_length,
    List.length_nil, List.length_singleton]
  split_ifs at hy <;> omega

/-! ## Deadline normalizer (model of `parseDeadline` and its helpers in
`src/reclaim-client.ts`) -/

theorem saneClock_concrete : saneClock 1700000000000 := by
  constructor <;> norm_num

theorem jsToISOString_some {t : Int} {s : String} (h : jsToISOString t = some s) :
    t.natAbs ≤ maxTimeValue ∧ s = String.mk (isoRenderL t) := by
  simp only [jsToISOString] at h
  split_ifs at h with hc
  · exact ⟨hc, (Option.some_inj.mp h).symm⟩

theorem jsToISOString_of_le {t : Int} (h : t.natAbs ≤ maxTimeValue) :
    jsToISOString t = some (String.mk (isoRenderL t)) := by
  simp only [jsToISOString, if_pos h]

theorem jsDateUTC_some {y m d u : Int} (h : jsDateUTC y m d = some u) :
    u.natAbs ≤ maxTimeValue := by
  simp only [jsDateUTC] at h
  exact (timeClip_some h).1

theorem parseISO_some {l : List Char} {t : Int} (h : parseISO l = some t) :
    t.natAbs ≤ maxTimeValue := by
  rw [parseISO] at h
  rcases hr : parseISORaw l with _ | x
  · rw [hr] at h
    exact Option.noConfusion h
  · rw [hr] at h
    simp only [Option.some_bind] at h
    exact (timeClip_some h).1

theorem jsDateParse_some {s : String} {t : Int} (h : jsDateParse s = some t) :
    t.natAbs ≤ maxTimeValue := parseISO_some h

theorem parseStringDeadline_ok {s r : String} (h : parseStringDeadline s = .ok r) :
    ∃ t : Int, t.natAbs ≤ maxTimeValue ∧ r = String.mk (isoRenderL t) := by
  rcases hjp : jsDateParse s with _ | t
  · simp only [parseStringDeadline, hjp] at h
    by_cases hsh : isYMDShape s.toList
    · rw [if_pos hsh] at h
      rcases hutc : jsDateUTC (ymdParts s.toList).1 ((ymdParts s.toList).2.1 - 1)
          (ymdParts s.toList).2.2 with _ | u
      · simp only [hutc] at h
        exact Except.noConfusion h
      · simp only [hutc] at h
        rcases hiso : jsToISOString u with _ | s2
        · simp only [hiso] at h
          exact Except.noConfusion h
        · simp only [hiso, Except.ok.injEq] at h
          obtain ⟨hc, hs⟩ := jsToISOString_some hiso
          exact ⟨u, hc, h ▸ hs⟩
    · rw [if_neg hsh] at h
      exact absurd h (by simp)
  · simp only [parseStringDeadline, hjp] at h
    rcases hiso : jsToISOString t with _ | s2
    · simp only [hiso] at h
      exact Except.noConfusion h
    · simp only [hiso, Except.ok.injEq] at h
      obtain ⟨hc, hs⟩ := jsToISOString_some hiso
      exact ⟨t, hc, h ▸ hs⟩

/-- Every string `parseDeadline` can return is the ISO rendering of a
representable time value. -/
theorem parseDeadline_shape (now : Int) (hnow : saneClock now) (input : Option DeadlineInput) :
    ∃ t : Int, t.natAbs ≤ maxTimeValue ∧
      parseDeadline now input = some (String.mk (isoRenderL t)) := by
  obtain ⟨hn0, hn1⟩ := hnow
  have hdef : defaultDeadline now = some (String.mk (isoRenderL (now + 86400000))) := by
    rw [defaultDeadline, jsToISOString, if_pos (by simp only [maxTimeValue]; omega)]
  have hdefault : ∃ t : Int, t.natAbs ≤ maxTimeValue ∧
      defaultDeadline now = some (String.mk (isoRenderL t)) :=
    ⟨now + 86400000, by simp only [maxTimeValue]; omega, hdef⟩
  match input with
  | none => exact hdefault
  | some (.num n) =>
    simp only [parseDeadline, parseNumericDeadline]
    by_cases hle : n ≤ 0
    · rw [if_pos hle, jsToISOString, if_pos (by simp only [maxTimeValue]; omega)]
      exact ⟨now, by simp only [maxTimeValue]; omega, rfl⟩
    · rw [if_neg hle, jsToISOString]
      by_cases hclip : (now + n * 86400000).natAbs ≤ maxTimeValue
      · rw [if_pos hclip]
        exact ⟨now + n * 86400000, hclip, rfl⟩
      · rw [if_neg hclip]
        exact hdefault
  | some (.str s) =>
    rcases hps : parseStringDeadline s with msg | r
    · simp only [parseDeadline, hps]
      exact hdefault
    · simp only [parseDeadline, hps]
      obtain ⟨t, hc, hs⟩ := parseStringDeadline_ok hps
      exact ⟨t, hc, by rw [hs]⟩

theorem parseDeadline_eq_normalizeSpec (now : Int) (hnow : saneClock now)
    (input : Option DeadlineInput) :
    parseDeadline now input = normalizeSpec now input := by
  obtain ⟨hn0, hn1⟩ := hnow
  match input with
  | none => rfl
  | some (.num n) =>
    simp only [parseDeadline, normalizeSpec, parseNumericDeadline]
    by_cases hle : n ≤ 0
    · rw [if_pos hle, if_pos hle, jsToISOString,
        if_pos (by simp only [maxTimeValue]; omega)]
    · rw [if_neg hle, if_neg hle]
      by_cases hclip : (now + n * 86400000).natAbs ≤ maxTimeValue
      · rw [if_pos hclip, jsToISOString, if_pos hclip]
      · rw [if_neg hclip, jsToISOString, if_neg hclip, defaultDeadline]
  | some (.str s) =>
    simp only [parseDeadline, normalizeSpec]
    rcases hjp : jsDateParse s with _ | t
    · simp only [parseStringDeadline, hjp]
      by_cases hsh : isYMDShape s.toList
      · rw [if_pos hsh, if_pos hsh]
        rcases hutc : jsDateUTC (ymdParts s.toList).1 ((ymdParts s.toList).2.1 - 1)
            (ymdParts s.toList).2.2 with _ | u
        · simp only [defaultDeadline]
        · simp only [jsToISOString_of_le (jsDateUTC_some hutc)]
      · rw [if_neg hsh, if_neg hsh]
        simp only [defaultDeadline]
    · simp only [parseStringDeadline, hjp, jsToISOString_of_le (jsDateParse_some hjp)]

theorem parseDeadline_length (now : Int) (hnow : saneClock now)
    (input : Option DeadlineInput) (s : String) (h : parseDeadline now input = some s) :
    24 ≤ s.length ∧ s.length ≠ 10 := by
  obtain ⟨t, ht, hshape⟩ := parseDeadline_shape now hnow input
  rw [h] at hshape
  obtain rfl := Option.some_inj.mp hshape.symm
  have hlen : (String.mk (isoRenderL t)).length = (isoRenderL t).length := rfl
  rcases isoRenderL_length t with h24 | h27 <;> rw [hlen] <;> omega

/-! ## Supporting lemmas for the claims -/

theorem parseDeadline_isSome (now : Int) (hnow : saneClock now)
    (input : Option DeadlineInput) : ∃ s, parseDeadline now input = some s := by
  obtain ⟨t, _, hs⟩ := parseDeadline_shape now hnow input
  exact ⟨_, hs⟩

theorem mem_stripUndefined {l : List (String × Option FieldVal)} {k : String} {v : FieldVal} :
    (k, v) ∈ stripUndefined l ↔ (k, some v) ∈ l := by
  rw [stripUndefined, List.mem_filterMap]
  constructor
  · rintro ⟨⟨k2, v2⟩, hmem, heq⟩
    rcases v2 with _ | w
    · simp at heq
    · simp only [Option.map_some', Option.some_inj, Prod.mk.injEq] at heq
      obtain ⟨rfl, rfl⟩ := heq
      exact hmem
  · intro hmem
    exact ⟨(k, some v), hmem, rfl⟩

theorem mem_keys_stripUndefined {l : List (String × Option FieldVal)} {k : String} :
    k ∈ (stripUndefined l).map Prod.fst ↔ ∃ v, (k, some v) ∈ l := by
  rw [List.mem_map]
  constructor
  · rintro ⟨⟨k2, v⟩, hmem, rfl⟩
    exact ⟨v, mem_stripUndefined.mp hmem⟩
  · rintro ⟨v, hmem⟩
    exact ⟨(k, v), mem_stripUndefined.mpr hmem, rfl⟩

theorem filterActiveTasks_map_some (ts : List TaskRec) :
    filterActiveTasks (.arr (ts.map some)) = (ts.filter activeTask).map some := by
  rw [filterActiveTasks]
  induction ts with
  | nil => rfl
  | cons hd tl ih =>
    by_cases hp : activeTask hd
    · simp [List.filter_cons, hp, ih]
    · simp [List.filter_cons, hp, ih]

/-! ## Claims -/

/-- C1: `filterActiveTasks` on a list of task records returns exactly the
order-preserving sublist of records passing the predicate `deleted ≠ true ∧
status ≠ "ARCHIVED" ∧ status ≠ "CANCELLED"`; in particular every non-deleted
task with status `"COMPLETE"` is retained. -/
theorem filterActiveTasks_spec (ts : List TaskRec) :
    filterActiveTasks (.arr (ts.map some)) = (ts.filter activeTask).map some ∧
    (∀ t : TaskRec, activeTask t = true ↔
      (t.deleted = false ∧ t.status ≠ "ARCHIVED" ∧ t.status ≠ "CANCELLED")) ∧
    List.Sublist (filterActiveTasks (.arr (ts.map some))) (ts.map some) ∧
    (∀ t ∈ ts, t.status = "COMPLETE" → t.deleted = false →
      some t ∈ filterActiveTasks (.arr (ts.map some))) := by
  have hpred : ∀ t : TaskRec, activeTask t = true ↔
      (t.deleted = false ∧ t.status ≠ "ARCHIVED" ∧ t.status ≠ "CANCELLED") := by
    intro t
    rw [activeTask]
    simp [Bool.and_eq_true, Bool.not_eq_true', and_assoc]
  refine ⟨filterActiveTasks_map_some ts, hpred, ?_, ?_⟩
  · rw [filterActiveTasks_map_some ts]
    exact (List.filter_sublist ts).map some
  · intro t hmem hstatus hdel
    rw [filterActiveTasks_map_some ts, List.mem_map]
    refine ⟨t, List.mem_filter.mpr ⟨hmem, ?_⟩, rfl⟩
    rw [hpred t, hstatus]
    exact ⟨hdel, by decide, by decide⟩

theorem filterActiveTasks_spec_witness :
    filterActiveTasks (.arr ([
      ⟨1, "a", none, "NEW", false, "P2"⟩,
      ⟨2, "b", none, "COMPLETE", false, "P2"⟩,
      ⟨3, "c", none, "ARCHIVED", false, "P2"⟩,
      ⟨4, "d", none, "CANCELLED", false, "P2"⟩,
      ⟨5, "e", none, "NEW", true, "P2"⟩].map some)) =
      [some ⟨1, "a", none, "NEW", false, "P2"⟩, some ⟨2, "b", none, "COMPLETE", false, "P2"⟩] ∧
    some (⟨2, "b", none, "COMPLETE", false, "P2"⟩ : TaskRec) ∈
      filterActiveTasks (.arr ([
        ⟨1, "a", none, "NEW", false, "P2"⟩,
        ⟨2, "b", none, "COMPLETE", false, "P2"⟩,
        ⟨3, "c", none, "ARCHIVED", false, "P2"⟩,
        ⟨4, "d", none, "CANCELLED", false, "P2"⟩,
        ⟨5, "e", none, "NEW", true, "P2"⟩].map some)) := by
  constructor
  · rw [(filterActiveTasks_spec _).1]
    decide
  · exact (filterActiveTasks_spec _).2.2.2 ⟨2, "b", none, "COMPLETE", false, "P2"⟩
      (by decide) rfl rfl

/-- C9: `filterActiveTasks` maps every non-array input — `null` and
`undefined` in particular — to the empty list, without failing (the model is
a total function). -/
theorem filterActiveTasks_defensive :
    filterActiveTasks .nullV = [] ∧ filterActiveTasks .undefinedV = [] ∧
    ∀ v : TasksValue, isArrayValue v = false → filterActiveTasks v = [] := by
  refine ⟨rfl, rfl, ?_⟩
  intro v hv
  cases v with
  | arr ts => exact absurd hv (by rw [isArrayValue]; simp)
  | nullV => rfl
  | undefinedV => rfl
  | otherV => rfl

theorem filterActiveTasks_defensive_witness :
    isArrayValue .otherV = false ∧ filterActiveTasks .otherV = [] :=
  ⟨rfl, filterActiveTasks_defensive.2.2 .otherV rfl⟩

/-- C5: for every task id and non-positive minutes, `addTimeToTask` and
`logWorkForTask` throw locally — the result is the `thrown` effect, not a
network request — with a message containing the word "positive". -/
theorem positiveMinutesGuard (now taskId minutes : Int) (endInput : Option String)
    (h : minutes ≤ 0) :
    addTimeToTask taskId minutes =
      .thrown ("Minutes must be " ++ "positive" ++ " to add time.") ∧
    logWorkForTask now taskId minutes endInput =
      .thrown ("Minutes must be " ++ "positive" ++ " to log work.") := by
  constructor
  · rw [addTimeToTask, if_pos h]
    congr 1
  · unfold logWorkForTask
    rw [if_pos h]
    congr 1

theorem positiveMinutesGuard_witness :
    ((-30 : Int) ≤ 0 ∧
      addTimeToTask 7 (-30) = .thrown ("Minutes must be " ++ "positive" ++ " to add time.")) ∧
    ((0 : Int) ≤ 0 ∧
      logWorkForTask 1700000000000 7 0 none =
        .thrown ("Minutes must be " ++ "positive" ++ " to log work.")) :=
  ⟨⟨by decide, (positiveMinutesGuard 1700000000000 7 (-30) none (by decide)).1⟩,
   ⟨by decide, (positiveMinutesGuard 1700000000000 7 0 none (by decide)).2⟩⟩

theorem snoozeStep_spec (now : Int) (hnow : saneClock now) (p1 : TaskInputData) :
    ∃ p, snoozeStep now p1 = some p ∧ p.deadline = p1.deadline ∧ p.due = p1.due ∧
      (p1.snoozeUntil = none → p.snoozeUntil = none) ∧
      (∀ sv, p1.snoozeUntil = some sv →
        p.snoozeUntil = (parseDeadline now (some sv)).map DeadlineInput.str) := by
  rcases hsv : p1.snoozeUntil with _ | sv
  · refine ⟨p1, ?_, rfl, rfl, fun _ => hsv, ?_⟩
    · simp only [snoozeStep, hsv]
    · intro sv hcon
      exact Option.noConfusion hcon
  · obtain ⟨s, hs⟩ := parseDeadline_isSome now hnow (some sv)
    refine ⟨{ p1 with snoozeUntil := some (.str s) }, ?_, rfl, rfl, ?_, ?_⟩
    · simp only [snoozeStep, hsv, hs, Option.map_some']
    · intro hcon
      exact Option.noConfusion hcon
    · intro sv2 hsv2
      obtain rfl := Option.some_inj.mp hsv2
      simp only [hs, Option.map_some']

theorem deadlineStepCreate_spec (now : Int) (hnow : saneClock now) (d : TaskInputData) :
    ∃ p1, deadlineStepCreate now d = some p1 ∧ p1.deadline = d.deadline ∧
      (∃ due, p1.due = some due) ∧
      (d.deadline = none → d.due = none → p1.due = parseDeadline now none) ∧
      (∀ dl, d.deadline = some dl → p1.due = parseDeadline now (some dl)) ∧
      p1.snoozeUntil = d.snoozeUntil := by
  rcases hdl : d.deadline with _ | dl
  · rcases hdue : d.due with _ | due0
    · obtain ⟨s, hs⟩ := parseDeadline_isSome now hnow none
      refine ⟨{ d with due := some s }, ?_, hdl, ⟨s, rfl⟩, ?_, ?_, rfl⟩
      · simp only [deadlineStepCreate, hdl, hdue, hs, Option.map_some']
      · intro _ _
        rw [hs]
      · intro dl hcon
        exact Option.noConfusion hcon
    · by_cases hne : due0 = ""
      · obtain ⟨s, hs⟩ := parseDeadline_isSome now hnow none
        refine ⟨{ d with due := some s }, ?_, hdl, ⟨s, rfl⟩, ?_, ?_, rfl⟩
        · simp only [deadlineStepCreate, hdl, hdue, if_pos hne, hs, Option.map_some']
        · intro _ hcon
          exact Option.noConfusion hcon
        · intro dl hcon
          exact Option.noConfusion hcon
      · refine ⟨d, ?_, hdl, ⟨due0, hdue⟩, ?_, ?_, rfl⟩
        · simp only [deadlineStepCreate, hdl, hdue, if_neg hne]
        · intro _ hcon
          exact Option.noConfusion hcon
        · intro dl hcon
          exact Option.noConfusion hcon
  · obtain ⟨s, hs⟩ := parseDeadline_isSome now hnow (some dl)
    refine ⟨{ d with due := some s }, ?_, hdl, ⟨s, rfl⟩, ?_, ?_, rfl⟩
    · simp only [deadlineStepCreate, hdl, hs, Option.map_some']
    · intro hcon
      exact Option.noConfusion hcon
    · intro dl2 hdl2
      obtain rfl := Option.some_inj.mp hdl2
      rw [hs]

theorem deadlineStepUpdate_spec (now : Int) (hnow : saneClock now) (d : TaskInputData) :
    ∃ p1, deadlineStepUpdate now d = some p1 ∧ p1.deadline = d.deadline ∧
      (d.deadline = none → p1 = d) ∧
      (∀ dl, d.deadline = some dl → p1.due = parseDeadline now (some dl)) ∧
      p1.snoozeUntil = d.snoozeUntil := by
  rcases hdl : d.deadline with _ | dl
  · refine ⟨d, ?_, hdl, fun _ => rfl, ?_, rfl⟩
    · simp only [deadlineStepUpdate, hdl]
    · intro dl hcon
      exact Option.noConfusion hcon
  · obtain ⟨s, hs⟩ := parseDeadline_isSome now hnow (some dl)
    refine ⟨{ d with due := some s }, ?_, hdl, ?_, ?_, rfl⟩
    · simp only [deadlineStepUpdate, hdl, hs, Option.map_some']
    · intro hcon
      exact Option.noConfusion hcon
    · intro dl2 hdl2
      obtain rfl := Option.some_inj.mp hdl2
      rw [hs]

/-- C3: `updateTask` never defaults `due` when `deadline` is absent (the
payload's `due` is the input's `due`, unchanged), and a payload with zero
fields after mapping and stripping performs no PATCH: the effect is exactly
a `getTask` read. -/
theorem updateTask_noop (now taskId : Int) (hnow : saneClock now) (d : TaskInputData) :
    (d.deadline = none → ∃ p, updateTaskPayload now d = some p ∧ p.due = d.due) ∧
    (∀ p, updateTaskPayload now d = some p → stripUndefined (entryList p) = [] →
      updateTask now taskId d = .getTask taskId) ∧
    updateTask now taskId {} = .getTask taskId := by
  refine ⟨?_, ?_, rfl⟩
  · intro hdl
    obtain ⟨p1, hp1, _, hp1none, _, _⟩ := deadlineStepUpdate_spec now hnow d
    obtain ⟨p, hp, _, hdue, _, _⟩ := snoozeStep_spec now hnow p1
    refine ⟨p, ?_, ?_⟩
    · rw [updateTaskPayload, hp1, Option.some_bind, hp]
    · rw [hdue, hp1none hdl]
  · intro p hp hempty
    rw [updateTask.eq_def, hp]
    simp [hempty]

theorem updateTask_noop_witness :
    saneClock 1700000000000 ∧ updateTask 1700000000000 41 {} = .getTask 41 :=
  ⟨⟨by decide, by decide⟩,
    (updateTask_noop 1700000000000 41 ⟨by decide, by decide⟩ {}).2.2⟩

set_option maxHeartbeats 1000000 in
/-- C7 (amended): the payload `createTask` transmits always carries a `due`
key — the normalization of a provided deadline, or the input's `due`,
defaulted through the normalizer when neither was provided — has any
provided `snoozeUntil` normalized, and contains only defined-valued keys;
but, against the claim, a provided `deadline` key is NOT removed: the
`Object.assign(apiPayload, cleanPayload)` merge never deletes it, so it is
transmitted verbatim alongside the normalized `due` (see the
counterexample). -/
theorem createTask_payload_spec (now : Int) (hnow : saneClock now) (d : TaskInputData) :
    ∃ p, createTaskPayload now d = some p ∧
      createTask now d = .postTask (stripUndefined (entryList p)) ∧
      p.deadline = d.deadline ∧
      (∃ due, p.due = some due ∧ ("due", FieldVal.str due) ∈ stripUndefined (entryList p)) ∧
      (d.deadline = none → d.due = none → p.due = parseDeadline now none) ∧
      (∀ dl, d.deadline = some dl → p.due = parseDeadline now (some dl) ∧
        ("deadline", FieldVal.dl dl) ∈ stripUndefined (entryList p)) ∧
      (∀ sv, d.snoozeUntil = some sv →
        p.snoozeUntil = (parseDeadline now (some sv)).map DeadlineInput.str) ∧
      (∀ k, k ∈ (stripUndefined (entryList p)).map Prod.fst → ∃ v, (k, some v) ∈ entryList p) := by
  obtain ⟨p1, hp1, hp1dl, ⟨due1, hdue1⟩, hdef, hdl, hsv1⟩ := deadlineStepCreate_spec now hnow d
  obtain ⟨p, hp, hpdl, hpdue, _, hpsv⟩ := snoozeStep_spec now hnow p1
  have hpay : createTaskPayload now d = some p := by
    rw [createTaskPayload, hp1, Option.some_bind, hp]
  have hdlval : p.deadline = d.deadline := by rw [hpdl, hp1dl]
  have hduep : p.due = some due1 := by rw [hpdue, hdue1]
  refine ⟨p, hpay, ?_, hdlval, ⟨due1, hduep, ?_⟩, ?_, ?_, ?_, ?_⟩
  · rw [createTask.eq_def, hpay]
  · rw [mem_stripUndefined]
    simp [entryList, hduep]
  · intro h1 h2
    rw [hpdue]
    exact hdef h1 h2
  · intro dl h1
    refine ⟨by rw [hpdue]; exact hdl dl h1, ?_⟩
    rw [mem_stripUndefined]
    have hpdls : p.deadline = some dl := by rw [hdlval, h1]
    simp [entryList, hpdls]
  · intro sv h1
    apply hpsv
    rw [hsv1, h1]
  · intro k hk
    exact mem_keys_stripUndefined.mp hk

theorem createTask_payload_spec_witness :
    saneClock 1700000000000 ∧
    ∃ p, createTaskPayload 1700000000000 { title := some "T", deadline := some (.num 2) }
        = some p ∧
      createTask 1700000000000 { title := some "T", deadline := some (.num 2) } =
        .postTask (stripUndefined (entryList p)) ∧
      p.due = parseDeadline 1700000000000 (some (.num 2)) ∧
      ("deadline", FieldVal.dl (.num 2)) ∈ stripUndefined (entryList p) := by
  refine ⟨⟨by decide, by decide⟩, ?_⟩
  obtain ⟨p, h1, h2, _, _, _, hdl, _, _⟩ :=
    createTask_payload_spec 1700000000000 ⟨by decide, by decide⟩
      { title := some "T", deadline := some (.num 2) }
  obtain ⟨hdue, hmem⟩ := hdl (.num 2) rfl
  exact ⟨p, h1, h2, hdue, hmem⟩

/-- C7 counterexample: a provided `deadline` is transmitted alongside the
normalized `due` — the POST payload does contain a `deadline` key, because
the `Object.assign` merge never removes it. -/
theorem createTask_deadline_retained_cex :
    createTask 1700000000000 { title := some "T", deadline := some (.num 2) } =
      .postTask [("title", .str "T"), ("due", .str "2023-11-16T22:13:20.000Z"),
        ("deadline", .dl (.num 2))] ∧
    "deadline" ∈ ([("title", FieldVal.str "T"),
      ("due", FieldVal.str "2023-11-16T22:13:20.000Z"),
      ("deadline", FieldVal.dl (.num 2))].map Prod.fst) := by decide

/-- `extractAxiosErrorInfo` passes the response status through unchanged. -/
theorem extractAxios_status (st : Option Int) (rd : Option JsVal) (msg : String) :
    (extractAxiosErrorInfo st rd msg).1 = st := by
  rcases rd with _ | rd
  · rfl
  · simp only [extractAxiosErrorInfo]
    split <;> rfl

/-- On a rejection carrying a nonzero status code, the error text
`wrapApiCall` emits starts with `Error <code>: <message>`. -/
theorem wrapApiCall_content_prefix (e : ThrownError) (c : Int)
    (hc : (extractErrorInfo e).2.2 = some c) (hc0 : ¬ c = 0) :
    ∃ tail, (wrapApiCall (.err e)).content
      = ["Error " ++ toString c ++ ": " ++ (extractErrorInfo e).1 ++ tail] := by
  rcases hinfo : extractErrorInfo e with ⟨msg, detail, code⟩
  rw [hinfo] at hc
  dsimp only at hc
  subst hc
  simp only [wrapApiCall, hinfo]
  rw [if_neg hc0]
  rcases detail with _ | d
  · exact ⟨"", by simp [extractDetailString, String.append_assoc]⟩
  · by_cases hobj : isObjectLike d
    · rcases htt : asTruthyStr (getField d "title") with _ | t
      · rcases hds : extractDetailString (some d) msg with _ | ds
        · exact ⟨"", by simp [hobj, htt, hds, String.append_assoc]⟩
        · exact ⟨" (" ++ ds ++ ")", by simp [hobj, htt, hds, String.append_assoc]⟩
      · rcases hds : extractDetailString (some d) msg with _ | ds
        · exact ⟨" - " ++ t, by simp [hobj, htt, hds, String.append_assoc]⟩
        · exact ⟨" - " ++ t ++ " (" ++ ds ++ ")",
            by simp [hobj, htt, hds, String.append_assoc]⟩
    · rcases hds : extractDetailString (some d) msg with _ | ds
      · exact ⟨"", by simp [hobj, hds, String.append_assoc]⟩
      · exact ⟨" (" ++ ds ++ ")", by simp [hobj, hds, String.append_assoc]⟩

/-- C2: `parseDeadline` implements the reference normalizer of §4.1, amended
on the positive-integer branch with a representability proviso: an integer
`n ≤ 0` yields the current timestamp, a positive `n` yields `now + n` days
preserving the time of day whenever that value is representable (otherwise
the `RangeError` thrown by `toISOString` is caught and the default is
returned — see the counterexample), a string gets the direct date parse and
then the strict `YYYY-MM-DD` fallback, and every failure and absent input
yields the default `now + 1` day. -/
theorem parseDeadline_reference_behavior (now : Int) (hnow : saneClock now)
    (input : Option DeadlineInput) :
    parseDeadline now input = normalizeSpec now input :=
  parseDeadline_eq_normalizeSpec now hnow input

theorem parseDeadline_reference_behavior_witness :
    saneClock 1700000000000 ∧
    parseDeadline 1700000000000 (some (.num 3)) =
      normalizeSpec 1700000000000 (some (.num 3)) :=
  ⟨⟨by norm_num, by norm_num⟩,
    parseDeadline_reference_behavior 1700000000000 ⟨by norm_num, by norm_num⟩
      (some (.num 3))⟩

/-- C2 counterexample: for `n = 10^12` days the projected time value is not
representable, `toISOString` throws `RangeError`, and `parseDeadline` falls
back to the default `now + 1` day instead of returning `now + n` days. -/
theorem parseDeadline_num_overflow_cex :
    parseNumericDeadline 1700000000000 1000000000000 = none ∧
    parseDeadline 1700000000000 (some (.num 1000000000000)) =
      some "2023-11-15T22:13:20.000Z" ∧
    defaultDeadline 1700000000000 = some "2023-11-15T22:13:20.000Z" := by decide

/-- C4: on every rejection `wrapApiCall` (a total function: it never throws)
returns an error-flagged result with a single text block; with a nonzero
status code present the text starts `Error <code>: <message>`;
`handleApiError` passes an Axios response status through, so a simulated 404
upstream error produces `isError := true` and a message starting with
`Error 404: `. -/
theorem wrapApiCall_error_shape (e : ThrownError) :
    (wrapApiCall (.err e)).isError = true ∧
    (∃ m, (wrapApiCall (.err e)).content = [m]) ∧
    (∀ c : Int, (extractErrorInfo e).2.2 = some c → c ≠ 0 →
      ∃ tail, (wrapApiCall (.err e)).content
        = ["Error " ++ toString c ++ ": " ++ (extractErrorInfo e).1 ++ tail]) ∧
    (∀ (st : Option Int) (rd : Option JsVal) (msg ctx : String),
      (handleApiError (.axiosErr st rd msg) ctx).status = st) ∧
    (∀ (rd : Option JsVal) (msg ctx : String), ∃ tail,
      (wrapApiCall (.err (.reclaim
        (handleApiError (.axiosErr (some 404) rd msg) ctx)))).isError = true ∧
      (wrapApiCall (.err (.reclaim
        (handleApiError (.axiosErr (some 404) rd msg) ctx)))).content
        = ["Error 404: " ++ tail]) := by
  refine ⟨rfl, ⟨_, rfl⟩, ?_, ?_, ?_⟩
  · exact fun c hc hc0 => wrapApiCall_content_prefix e c hc hc0
  · intro st rd msg ctx
    exact extractAxios_status st rd msg
  · intro rd msg ctx
    have hst : (extractErrorInfo (.reclaim
        (handleApiError (.axiosErr (some 404) rd msg) ctx))).2.2 = some 404 := by
      simp only [extractErrorInfo, handleApiError]
      exact extractAxios_status _ _ _
    obtain ⟨tail, htail⟩ := wrapApiCall_content_prefix _ 404 hst (by norm_num)
    refine ⟨(extractErrorInfo (.reclaim
        (handleApiError (.axiosErr (some 404) rd msg) ctx))).1 ++ tail, rfl, ?_⟩
    rw [htail, (by decide : ("Error " ++ toString (404 : Int)) ++ ": " = "Error 404: "),
      String.append_assoc]

theorem wrapApiCall_error_shape_witness :
    (extractErrorInfo (.reclaim ⟨"getTask: Not Found", some 404, none⟩)).2.2
        = some 404 ∧
    ((404 : Int) ≠ 0) ∧
    ∃ tail,
      (wrapApiCall (.err (.reclaim ⟨"getTask: Not Found", some 404, none⟩))).content
        = ["Error " ++ toString (404 : Int) ++ ": "
            ++ (extractErrorInfo (.reclaim ⟨"getTask: Not Found", some 404, none⟩)).1
            ++ tail] :=
  ⟨rfl, by norm_num,
    (wrapApiCall_error_shape (.reclaim ⟨"getTask: Not Found", some 404, none⟩)).2.2.1
      404 rfl (by norm_num)⟩

/-- C6: `parseDeadline` never throws — every input yields a string — and the
returned string is an ISO rendering that parses back (through the `Date`
constructor model) to a representable time value. -/
theorem parseDeadline_total_roundtrip (now : Int) (hnow : saneClock now)
    (input : Option DeadlineInput) :
    ∃ s t, parseDeadline now input = some s ∧ s = String.mk (isoRenderL t) ∧
      t.natAbs ≤ maxTimeValue ∧ jsDateParse s = some t := by
  obtain ⟨t, ht, hs⟩ := parseDeadline_shape now hnow input
  exact ⟨String.mk (isoRenderL t), t, hs, rfl, ht, parseISO_isoRenderL t ht⟩

theorem parseDeadline_total_roundtrip_witness :
    saneClock 1700000000000 ∧
    ∃ s t, parseDeadline 1700000000000 (some (.str "not-a-date")) = some s ∧
      s = String.mk (isoRenderL t) ∧
      t.natAbs ≤ maxTimeValue ∧ jsDateParse s = some t :=
  ⟨⟨by norm_num, by norm_num⟩,
    parseDeadline_total_roundtrip 1700000000000 ⟨by norm_num, by norm_num⟩
      (some (.str "not-a-date"))⟩

/-- C8: on fulfillment `wrapApiCall` returns a non-error result with a single
text block: the canonical success JSON for a void-like resolution, the
pretty-printed JSON serialization for an object-like value, and — amending
the claim — `String(result)` for a primitive value (see the
counterexample). -/
theorem wrapApiCall_success_shape (v : Option JsVal) :
    (wrapApiCall (.ok v)).isError = false ∧
    (∃ m, (wrapApiCall (.ok v)).content = [m]) ∧
    (v = none → (wrapApiCall (.ok v)).content
      = [jsonStringifyPretty (.objV [("success", .boolV true)])]) ∧
    (∀ w, v = some w → isObjectLike w = true →
      (wrapApiCall (.ok v)).content = [jsonStringifyPretty w]) ∧
    (∀ w, v = some w → isObjectLike w = false →
      (wrapApiCall (.ok v)).content = [jsToString w]) := by
  rcases v with _ | w
  · exact ⟨rfl, ⟨_, rfl⟩, fun _ => rfl, fun w h => Option.noConfusion h,
      fun w h => Option.noConfusion h⟩
  · refine ⟨rfl, ⟨_, rfl⟩, fun h => Option.noConfusion h, ?_, ?_⟩
    · intro w2 hw hobj
      obtain rfl := Option.some_inj.mp hw
      simp [wrapApiCall, formatSuccessResult, hobj]
    · intro w2 hw hobj
      obtain rfl := Option.some_inj.mp hw
      simp [wrapApiCall, formatSuccessResult, hobj]

theorem wrapApiCall_success_shape_witness :
    ((some (.boolV true) : Option JsVal) = some (.boolV true)) ∧
    isObjectLike (.boolV true) = false ∧
    (wrapApiCall (.ok (some (.boolV true)))).content = [jsToString (.boolV true)] :=
  ⟨rfl, rfl,
    (wrapApiCall_success_shape (some (.boolV true))).2.2.2.2 (.boolV true) rfl rfl⟩

/-- C8 counterexample: a promise resolving to the primitive string `done` is
rendered through `String(result)` as the bare text `done`, not as its JSON
serialization `"done"` that the claim's reference requires. -/
theorem formatSuccessResult_string_cex :
    formatSuccessResult (some (.strV "done"))
        ≠ formatSuccessResultSpec (some (.strV "done")) ∧
    wrapApiCall (.ok (some (.strV "done")))
        = { isError := false, content := ["done"] } ∧
    jsonStringifyPretty (.strV "done") = "\"done\"" := by decide

/-- C10 counterexample: the strict `YYYY-MM-DD` fallback accepts the
non-calendar date `9999-13-45`, `Date.UTC` rolls it over past year 9999, and
`toISOString` renders the 27-character expanded-year form — not a
24-character timestamp. -/
theorem parseDeadline_expanded_year_cex :
    parseDeadline 1700000000000 (some (.str "9999-13-45")) =
      some "+010000-02-14T00:00:00.000Z" ∧
    ("+010000-02-14T00:00:00.000Z" : String).length = 27 := by decide

/-- C10 (amended): every string `parseDeadline` returns has length at least
24 — either the 24-character timestamp or the 27-character expanded-year
form, never a bare 10-character `YYYY-MM-DD` date — so the length-10
re-coercion branch of `logWorkForTask` is unreachable and the transmitted
`end` parameter equals the `parseDeadline` result verbatim. -/
theorem logWork_end_verbatim (now taskId minutes : Int) (e : String)
    (hnow : saneClock now) (hmin : 0 < minutes) (he : ¬ e = "") :
    ∃ s, parseDeadline now (some (.str e)) = some s ∧
      24 ≤ s.length ∧ s.length ≠ 10 ∧
      logWorkForTask now taskId minutes (some e) =
        .postLogWork taskId { minutes := minutes, endParam := some s } := by
  obtain ⟨s, hs⟩ := parseDeadline_isSome now hnow (some (.str e))
  have hlen := parseDeadline_length now hnow (some (.str e)) s hs
  refine ⟨s, hs, hlen.1, hlen.2, ?_⟩
  unfold logWorkForTask
  rw [if_neg (by omega : ¬ minutes ≤ 0)]
  dsimp only
  rw [if_neg he, hs]
  dsimp only
  rw [if_neg hlen.2]

theorem logWork_end_verbatim_witness :
    saneClock 1700000000000 ∧ ((0 : Int) < 30) ∧ (¬ ("2030-01-02" : String) = "") ∧
    ∃ s, parseDeadline 1700000000000 (some (.str "2030-01-02")) = some s ∧
      24 ≤ s.length ∧ s.length ≠ 10 ∧
      logWorkForTask 1700000000000 5 30 (some "2030-01-02") =
        .postLogWork 5 { minutes := 30, endParam := some s } :=
  ⟨⟨by norm_num, by norm_num⟩, by norm_num, by decide,
    logWork_end_verbatim 1700000000000 5 30 "2030-01-02" ⟨by norm_num, by norm_num⟩
      (by norm_num) (by decide)⟩
